import Mathlib

/-!
Verification of the F1 race predictor against its specification.

The development shallowly embeds the two prediction backends of the
repository:

* `F1.predict` embeds the ranking endpoint of src/app.py
  (function `predict`, the "Perturbation Ranker" plus the rank
  normalisation and aggregate statistics);
* `F1.predict_race` and `F1.fallback_prediction` embed the
  "Pluggable Predictor" of src/scripts/demo.py
  (class `F1DemoPredictor`).

Floating-point numbers of the source are modelled as rationals, the
entropy source (`random.gauss`, `random.uniform`, `np.random.normal`)
as explicit streams of draws, and Python exceptions (`ZeroDivisionError`,
`KeyError`, a raising classifier) as `Option`/`none`.
-/

namespace F1

/-- Python `int(x)` applied to a float: truncation toward zero. -/
def truncToZero (q : ℚ) : ℤ := if 0 ≤ q then ⌊q⌋ else ⌈q⌉

/-- Python `round(x)`: rounding to the nearest integer, ties to even. -/
def pyRound (q : ℚ) : ℤ :=
  if q - ⌊q⌋ < 1 / 2 then ⌊q⌋
  else if 1 / 2 < q - ⌊q⌋ then ⌊q⌋ + 1
  else if Even ⌊q⌋ then ⌊q⌋ else ⌊q⌋ + 1

/-- Python `round(x, 1)`: rounding to one decimal place. -/
def round1 (q : ℚ) : ℚ := (pyRound (q * 10) : ℚ) / 10

/-- Reference data for one entrant (src/app.py `DRIVERS` values). -/
structure DriverInfo where
  name : String
  team : String
  number : ℕ
deriving DecidableEq

/-- The `DRIVERS` reference table of src/app.py: entrant code to
display name, team and car number. -/
def DRIVERS : List (String × DriverInfo) := [
  ("VER", ⟨"Max Verstappen", "Red Bull", 1⟩),
  ("TSU", ⟨"Yuki Tsunoda", "Red Bull", 22⟩),
  ("HAM", ⟨"Lewis Hamilton", "Ferrari", 44⟩),
  ("LEC", ⟨"Charles Leclerc", "Ferrari", 16⟩),
  ("RUS", ⟨"George Russell", "Mercedes", 63⟩),
  ("ANT", ⟨"Andrea Kimi Antonelli", "Mercedes", 12⟩),
  ("NOR", ⟨"Lando Norris", "McLaren", 4⟩),
  ("PIA", ⟨"Oscar Piastri", "McLaren", 81⟩),
  ("ALO", ⟨"Fernando Alonso", "Aston Martin", 14⟩),
  ("STR", ⟨"Lance Stroll", "Aston Martin", 18⟩),
  ("GAS", ⟨"Pierre Gasly", "Alpine", 10⟩),
  ("COL", ⟨"Franco Colapinto", "Alpine", 19⟩),
  ("OCO", ⟨"Esteban Ocon", "Haas", 31⟩),
  ("BEA", ⟨"Oliver Bearman", "Haas", 87⟩),
  ("TSU2", ⟨"Isack Hadjar", "Racing Bulls", 6⟩),
  ("LAW", ⟨"Liam Lawson", "Racing Bulls", 30⟩),
  ("HUL", ⟨"Nico Hülkenberg", "Sauber", 27⟩),
  ("BOR", ⟨"Gabriel Bortoleto", "Sauber", 5⟩),
  ("ALB", ⟨"Alex Albon", "Williams", 23⟩),
  ("SAI2", ⟨"Carlos Sainz", "Williams", 55⟩)]

/-- Association-list lookup, the Python dict access pattern
`table.get(code)` / `code in table`. -/
def assoc {α : Type} (l : List (String × α)) (code : String) : Option α :=
  (l.find? (fun p => p.1 == code)).map (·.2)

/-- Membership test plus access `DRIVERS[code]` of src/app.py. -/
def driversFind (code : String) : Option DriverInfo := assoc DRIVERS code

/-- The `weights` request field: each of the five recognised names may be
present (`some`) or missing (`none`), exactly as a Python dict queried
with `weights.get(name, default)`. -/
structure Weights where
  quali : Option ℚ
  pace : Option ℚ
  tire : Option ℚ
  weather : Option ℚ
  strategy : Option ℚ
deriving DecidableEq

/-- The random draws consumed for one matched entrant in src/app.py
`predict`: `random.gauss(0, 2)` and the four `random.uniform` feature
draws plus the `random.uniform(0, 0.2)` confidence draw. -/
structure Draws where
  gauss : ℚ
  pace : ℚ
  tire : ℚ
  weather : ℚ
  strategy : ℚ
  conf : ℚ
deriving DecidableEq

/-- One entry of the `predictions` response list of src/app.py. -/
@[ext] structure PredictionRecord where
  position : ℤ
  name : String
  team : String
  number : ℕ
  qualifying : ℤ
  change : ℤ
  confidence : ℚ
deriving DecidableEq

/-- The summed perturbation `total_change` of src/app.py lines 831-840:
Gaussian baseline plus the four weighted uniform feature terms, with the
per-name defaults of `weights.get`. -/
def totalChange (w : Weights) (dr : Draws) : ℚ :=
  dr.gauss + w.pace.getD (3 / 5) * dr.pace + w.tire.getD (9 / 20) * dr.tire
    + w.weather.getD (3 / 10) * dr.weather + w.strategy.getD (1 / 2) * dr.strategy

/-- The raw predicted position of src/app.py line 841:
`max(1, min(10, int(i + 1 + total_change)))` for 0-based sorted index `i`. -/
def rawPosition (i : ℕ) (tc : ℚ) : ℤ := max 1 (min 10 (truncToZero ((i : ℚ) + 1 + tc)))

/-- The clamped confidence of src/app.py lines 844-845:
`min(0.95, max(0.4, 0.5 + quali_factor * 0.3 + uniform(0, 0.2)))` where
`quali_factor = weights.get('quali', 0.7) * 0.5`. -/
def rankConfidence (w : Weights) (dr : Draws) : ℚ :=
  min (19 / 20) (max (2 / 5) (1 / 2 + w.quali.getD (7 / 10) * (1 / 2) * (3 / 10) + dr.conf))

/-- The record appended for the matched entrant at 0-based sorted index
`i` (src/app.py lines 849-857). -/
def mkRecord (w : Weights) (i : ℕ) (info : DriverInfo) (dr : Draws) : PredictionRecord :=
  { position := rawPosition i (totalChange w dr)
    name := info.name
    team := info.team
    number := info.number
    qualifying := (i : ℤ) + 1
    change := rawPosition i (totalChange w dr) - ((i : ℤ) + 1)
    confidence := rankConfidence w dr }

/-- The main loop of src/app.py `predict` (lines 828-857) over the
time-sorted qualifying entries: entrant codes absent from `DRIVERS` are
skipped but still advance the enumeration index `i`; each matched
entrant consumes the next element `rng k` of the entropy stream. -/
def rankLoop (w : Weights) (rng : ℕ → Draws) :
    List (String × ℚ) → ℕ → ℕ → List PredictionRecord
  | [], _, _ => []
  | (code, _) :: rest, i, k =>
    match driversFind code with
    | none => rankLoop w rng rest (i + 1) k
    | some info => mkRecord w i info (rng k) :: rankLoop w rng rest (i + 1) (k + 1)

/-- Ascending qualifying time, the `key=lambda x: x[1]` sort relation of
src/app.py line 823 and src/scripts/demo.py line 138. -/
def byTime (a b : String × ℚ) : Prop := a.2 ≤ b.2

instance : DecidableRel byTime := fun a b => inferInstanceAs (Decidable (a.2 ≤ b.2))

instance : IsTotal (String × ℚ) byTime := ⟨fun a b => le_total a.2 b.2⟩

instance : IsTrans (String × ℚ) byTime := ⟨fun _ _ _ hab hbc => le_trans hab hbc⟩

/-- Ascending raw predicted position, the `key=lambda x: x['position']`
sort relation of src/app.py line 860. -/
def byPos (a b : PredictionRecord) : Prop := a.position ≤ b.position

instance : DecidableRel byPos := fun a b => inferInstanceAs (Decidable (a.position ≤ b.position))

instance : IsTotal PredictionRecord byPos := ⟨fun a b => le_total a.position b.position⟩

instance : IsTrans PredictionRecord byPos := ⟨fun _ _ _ hab hbc => le_trans hab hbc⟩

/-- The renumbering pass of src/app.py lines 863-865: record at 0-based
index `i` receives position `i + 1` and `change` is recomputed as the
new position minus the qualifying position. -/
def renumberFrom : ℕ → List PredictionRecord → List PredictionRecord
  | _, [] => []
  | i, r :: rest =>
    { r with position := (i : ℤ) + 1, change := ((i : ℤ) + 1) - r.qualifying }
      :: renumberFrom (i + 1) rest

/-- The Rank Normalizer of src/app.py lines 859-865: stable sort by raw
predicted position, then renumber positions 1..N and recompute deltas. -/
def normalize (l : List PredictionRecord) : List PredictionRecord :=
  renumberFrom 0 (l.insertionSort byPos)

/-- The JSON object returned by src/app.py `predict` (lines 867-872). -/
structure OutcomeSummary where
  predictions : List PredictionRecord
  accuracy : ℤ
  avgConfidence : ℤ
  volatility : ℚ
deriving DecidableEq

/-- Embedding of src/app.py `predict` (lines 816-872).  The qualifying
dict is an association list in insertion order; `rng` is the entropy
stream.  Python evaluates `total_confidence / len(predictions)` at line
870 and raises `ZeroDivisionError` when no entrant matched; that
exceptional outcome is modelled as `none`. -/
def predict (qualifying : List (String × ℚ)) (w : Weights) (rng : ℕ → Draws) :
    Option OutcomeSummary :=
  let sorted_quali := qualifying.insertionSort byTime
  let predictions := rankLoop w rng sorted_quali 0 0
  let total_confidence := (predictions.map (·.confidence)).sum
  let normed := normalize predictions
  if normed.length = 0 then none
  else some {
    predictions := normed
    accuracy := 68 + truncToZero (w.quali.getD (7 / 10) * 10)
    avgConfidence := truncToZero (total_confidence / (normed.length : ℚ) * 100)
    volatility := round1 (7 / 2 - w.quali.getD (7 / 10) * 2) }

/-- Number of qualifying entries whose code is present in `DRIVERS`: the
number of records produced by the ranker. -/
def countMatched (qualifying : List (String × ℚ)) : ℕ :=
  qualifying.countP (fun p => (driversFind p.1).isSome)

/-! Embedding of src/scripts/demo.py (`F1DemoPredictor`). -/

/-- The `DRIVER_NAMES` display table of src/scripts/demo.py. -/
def DRIVER_NAMES : List (String × String) := [
  ("VER", "Max Verstappen"), ("PER", "Sergio Perez"),
  ("HAM", "Lewis Hamilton"), ("RUS", "George Russell"),
  ("LEC", "Charles Leclerc"), ("SAI", "Carlos Sainz"),
  ("NOR", "Lando Norris"), ("PIA", "Oscar Piastri"),
  ("ALO", "Fernando Alonso"), ("STR", "Lance Stroll"),
  ("TSU", "Yuki Tsunoda"), ("RIC", "Daniel Ricciardo"),
  ("HUL", "Nico Hulkenberg"), ("MAG", "Kevin Magnussen"),
  ("GAS", "Pierre Gasly"), ("OCO", "Esteban Ocon"),
  ("BOT", "Valtteri Bottas"), ("ZHO", "Zhou Guanyu"),
  ("SAR", "Logan Sargeant"), ("ALB", "Alexander Albon")]

/-- The `driver_ratings` table of `create_features`. -/
def driver_ratings : List (String × ℚ) := [
  ("VER", 95 / 100), ("HAM", 90 / 100), ("LEC", 88 / 100), ("RUS", 82 / 100),
  ("SAI", 80 / 100), ("NOR", 78 / 100), ("PIA", 76 / 100), ("PER", 74 / 100),
  ("ALO", 72 / 100), ("GAS", 65 / 100), ("OCO", 63 / 100), ("TSU", 60 / 100),
  ("HUL", 58 / 100), ("RIC", 56 / 100), ("ALB", 54 / 100), ("MAG", 52 / 100),
  ("BOT", 50 / 100), ("ZHO", 48 / 100), ("STR", 46 / 100), ("SAR", 42 / 100)]

/-- The `team_performance` table of `create_features`. -/
def team_performance : List (String × ℚ) := [
  ("VER", 92 / 100), ("PER", 92 / 100), ("LEC", 85 / 100), ("SAI", 85 / 100),
  ("HAM", 78 / 100), ("RUS", 78 / 100), ("NOR", 82 / 100), ("PIA", 82 / 100),
  ("ALO", 62 / 100), ("STR", 62 / 100), ("TSU", 58 / 100), ("RIC", 58 / 100),
  ("HUL", 55 / 100), ("MAG", 55 / 100), ("GAS", 60 / 100), ("OCO", 60 / 100),
  ("BOT", 48 / 100), ("ZHO", 48 / 100), ("ALB", 52 / 100), ("SAR", 52 / 100)]

/-- The `driver_skill` lookup of `fallback_prediction`. -/
def driver_skill : List (String × ℚ) := [
  ("VER", 3 / 10), ("HAM", 2 / 10), ("LEC", 1 / 10), ("NOR", 1 / 10),
  ("SAI", 0), ("RUS", 0), ("PIA", -(1 / 10)), ("ALO", 1 / 10),
  ("PER", -(2 / 10)), ("GAS", -(1 / 10))]

/-- Mock weather record (`get_monaco_weather` shape). -/
structure Weather where
  temperature : ℚ
  condition : String
  humidity : ℚ
deriving DecidableEq

/-- The feature vector built by `create_features`: qualifying position,
driver rating (default 0.5), team performance (default 0.5), dry-weather
flag, track temperature and the constant default tire strategy. -/
def create_features (qualifying_position : ℚ) (driver_code : String)
    (weather : Weather) : List ℚ :=
  [qualifying_position,
   (assoc driver_ratings driver_code).getD (1 / 2),
   (assoc team_performance driver_code).getD (1 / 2),
   if weather.condition ≠ "rain" then 1 else 0,
   weather.temperature,
   1]

/-- Statistical fallback of `fallback_prediction` (src/scripts/demo.py
lines 175-200): `base_change = 0`, driver-skill bonus with default
−0.2, plus the Gaussian draw `noise`; the predicted position is
`max(1, min(20, int(qualifying_position + position_change)))` and the
confidence is `max(0.4, min(0.9, 0.7 - abs(position_change) / 10))`. -/
def fallback_prediction (qualifying_position : ℕ) (driver_code : String)
    (noise : ℚ) : ℤ × ℚ :=
  let base_change : ℚ := 0
  let skill_bonus := (assoc driver_skill driver_code).getD (-(2 / 10))
  let position_change := base_change + skill_bonus + noise
  let predicted_position :=
    max 1 (min 20 (truncToZero ((qualifying_position : ℚ) + position_change)))
  let confidence := max (2 / 5) (min (9 / 10) (7 / 10 - |position_change| / 10))
  (predicted_position, confidence)

/-- First index of the maximum element (`np.argmax`), on a cons cell. -/
def argmaxAux : List ℚ → ℕ → ℕ → ℚ → ℕ
  | [], _, bi, _ => bi
  | x :: xs, i, bi, bv =>
    if bv < x then argmaxAux xs (i + 1) i x else argmaxAux xs (i + 1) bi bv

/-- np.argmax over a nonempty probability list. -/
def npArgmax : List ℚ → ℕ
  | [] => 0
  | x :: xs => argmaxAux xs 1 0 x

/-- np.max over a nonempty probability list. -/
def npMax : List ℚ → ℚ
  | [] => 0
  | x :: xs => xs.foldl max x

/-- The optional classifier handle: `predict_proba` on a feature vector
yields a probability list, or `none` when the invocation raises. -/
def Model : Type := List ℚ → Option (List ℚ)

/-- One entry of the prediction list built by `predict_race`. -/
@[ext] structure DemoRecord where
  driver_code : String
  driver_name : String
  qualifying_position : ℤ
  qualifying_time : ℚ
  predicted_position : ℤ
  confidence : ℚ
  position_change : ℤ
deriving DecidableEq

/-- The per-entrant backend choice of `predict_race` (src/scripts/demo.py
lines 147-158) together with the index of the next unconsumed noise
draw: with a classifier present and a successfully returned nonempty
probability list the position is `argmax + 1` with the maximum
probability as confidence; a raising classifier (`none` result, and
likewise the `np.argmax` failure on an empty list) is caught and the
entrant falls back to `fallback_prediction`, consuming one noise draw. -/
def predictOne (model : Option Model) (qp : ℕ) (code : String)
    (weather : Weather) (ns : ℕ → ℚ) (k : ℕ) : (ℤ × ℚ) × ℕ :=
  match model with
  | some m =>
    match m (create_features (qp : ℚ) code weather) with
    | some (p :: ps) => (((npArgmax (p :: ps) : ℤ) + 1, npMax (p :: ps)), k)
    | some [] => (fallback_prediction qp code (ns k), k + 1)
    | none => (fallback_prediction qp code (ns k), k + 1)
  | none => (fallback_prediction qp code (ns k), k + 1)

/-- The loop of `predict_race` over the time-sorted qualifying entries
(src/scripts/demo.py lines 140-168).  The display-name access
`DRIVER_NAMES[driver_code]` raises `KeyError` for an unknown code and
aborts the run; that outcome is modelled as `none`. -/
def demoLoop (model : Option Model) (weather : Weather) (ns : ℕ → ℚ) :
    List (String × ℚ) → ℕ → ℕ → Option (List DemoRecord)
  | [], _, _ => some []
  | (code, t) :: rest, i, k =>
    let qp := i + 1
    let res := predictOne model qp code weather ns k
    match assoc DRIVER_NAMES code with
    | none => none
    | some nm =>
      (demoLoop model weather ns rest (i + 1) res.2).map (fun recs =>
        { driver_code := code
          driver_name := nm
          qualifying_position := (i : ℤ) + 1
          qualifying_time := t
          predicted_position := res.1.1
          confidence := res.1.2
          position_change := res.1.1 - ((i : ℤ) + 1) } :: recs)

/-- Ascending predicted position, the final sort relation of
src/scripts/demo.py line 171. -/
def byPredPos (a b : DemoRecord) : Prop := a.predicted_position ≤ b.predicted_position

instance : DecidableRel byPredPos :=
  fun a b => inferInstanceAs (Decidable (a.predicted_position ≤ b.predicted_position))

instance : IsTotal DemoRecord byPredPos :=
  ⟨fun a b => le_total a.predicted_position b.predicted_position⟩

instance : IsTrans DemoRecord byPredPos := ⟨fun _ _ _ hab hbc => le_trans hab hbc⟩

/-- Embedding of `F1DemoPredictor.predict_race` (src/scripts/demo.py
lines 133-173): per-entrant prediction on the time-sorted field, then a
stable sort by predicted position.  No renumbering takes place. -/
def predict_race (model : Option Model) (qualifying : List (String × ℚ))
    (weather : Weather) (ns : ℕ → ℚ) : Option (List DemoRecord) :=
  (demoLoop model weather ns (qualifying.insertionSort byTime) 0 0).map
    (fun recs => recs.insertionSort byPredPos)

/-! Definitions stated from the specification's wording, for comparison
with the embedded code (refinement claims C5 and C8). -/

/-- Formalisation of the spec sentence for the raw predicted position
(spec 4.1 step 3): `idx + 1 + round_toward_zero(delta)`, clamped into
[1, 10].  To be compared with `rawPosition`, which the code computes. -/
def rawPositionClaim (idx : ℕ) (delta : ℚ) : ℤ :=
  max 1 (min 10 ((idx : ℤ) + 1 + truncToZero delta))

/-- Formalisation of the spec sentence for the fallback predicted
position (spec 4.3): qualifying position plus skill bonus (default
−0.2) plus noise, rounded, clamped into [1, fieldSize].  To be compared
with `fallback_prediction`, which the code computes. -/
def fallbackPositionClaim (qualifying_position : ℕ) (driver_code : String)
    (noise : ℚ) (fieldSize : ℕ) : ℤ :=
  max 1 (min (fieldSize : ℤ)
    (pyRound ((qualifying_position : ℚ)
      + (assoc driver_skill driver_code).getD (-(2 / 10)) + noise)))

/-! Projections and concrete inputs used by the theorems below. -/

/-- Record list returned by the web backend; the exceptional
(`ZeroDivisionError`) outcome contributes no records. -/
def predictRecords (qualifying : List (String × ℚ)) (w : Weights)
    (rng : ℕ → Draws) : List PredictionRecord :=
  (predict qualifying w rng).elim [] (·.predictions)

/-- Record list returned by the demo backend; the exceptional
(`KeyError`) outcome contributes no records. -/
def raceRecords (model : Option Model) (qualifying : List (String × ℚ))
    (weather : Weather) (ns : ℕ → ℚ) : List DemoRecord :=
  (predict_race model qualifying weather ns).elim [] id

/-- Weights request with all five names missing. -/
def noneWeights : Weights := ⟨none, none, none, none, none⟩

/-- Entropy stream returning zero for every draw. -/
def zeroRng : ℕ → Draws := fun _ => ⟨0, 0, 0, 0, 0, 0⟩

/-- Noise stream returning zero for every draw. -/
def zeroNoise : ℕ → ℚ := fun _ => 0

/-- The mock weather of `get_monaco_weather`. -/
def monacoWeather : Weather := ⟨49 / 2, "clear", 68⟩

/-- A classifier whose invocation raises on every call. -/
def alwaysFail : Model := fun _ => none

/-- Noise stream whose first draw is 0 and whose later draws are −1. -/
def stepNoise : ℕ → ℚ := fun k => if k = 0 then 0 else -1

/-- Weights with every name present, holding the value the code would
use for the corresponding possibly-missing name: the per-name default
when the name is missing, the supplied value otherwise. -/
def resolveW (w : Weights) : Weights :=
  ⟨some (w.quali.getD (7 / 10)), some (w.pace.getD (3 / 5)),
   some (w.tire.getD (9 / 20)), some (w.weather.getD (3 / 10)),
   some (w.strategy.getD (1 / 2))⟩

/-- A concrete already-normalised record list: positions 1, 2 in order,
deltas equal to predicted minus qualifying. -/
def normalizedPair : List PredictionRecord :=
  [⟨1, "Max Verstappen", "Red Bull", 1, 1, 0, 1 / 2⟩,
   ⟨2, "Lewis Hamilton", "Ferrari", 44, 2, 0, 3 / 5⟩]

/-- The record the ranking loop produces for the one-entrant field
{VER: 78} with all weights missing and the zero entropy stream. -/
def verRankRecord : PredictionRecord :=
  mkRecord noneWeights 0 ⟨"Max Verstappen", "Red Bull", 1⟩ (zeroRng 0)

/-- The record the demo loop produces for the one-entrant field
{VER: 78} with no classifier and zero noise. -/
def verDemoRecord : DemoRecord :=
  ⟨"VER", "Max Verstappen", (0 : ℤ) + 1, 78,
   (fallback_prediction (0 + 1) "VER" (zeroNoise 0)).1,
   (fallback_prediction (0 + 1) "VER" (zeroNoise 0)).2,
   (fallback_prediction (0 + 1) "VER" (zeroNoise 0)).1 - ((0 : ℤ) + 1)⟩

/-! Helper lemmas about the Rank Normalizer. -/

theorem renumberFrom_length (i : ℕ) (l : List PredictionRecord) :
    (renumberFrom i l).length = l.length := by
  induction l generalizing i with
  | nil => rfl
  | cons r rest ih => simp [renumberFrom, ih]

theorem renumberFrom_map_position (i : ℕ) (l : List PredictionRecord) :
    (renumberFrom i l).map (·.position) =
      (List.range' (i + 1) l.length).map (fun n : ℕ => (n : ℤ)) := by
  induction l generalizing i with
  | nil => rfl
  | cons r rest ih =>
    simp only [renumberFrom, List.map_cons, List.length_cons, List.range'_succ, ih,
      List.cons.injEq]
    push_cast
    exact ⟨rfl, trivial⟩

theorem renumberFrom_change (i : ℕ) (l : List PredictionRecord) :
    ∀ r ∈ renumberFrom i l, r.change = r.position - r.qualifying := by
  induction l generalizing i with
  | nil => intro r hr; cases hr
  | cons a rest ih =>
    intro r hr
    cases hr with
    | head => simp
    | tail _ hr => exact ih (i + 1) r hr

theorem renumberFrom_map_confidence (i : ℕ) (l : List PredictionRecord) :
    (renumberFrom i l).map (·.confidence) = l.map (·.confidence) := by
  induction l generalizing i with
  | nil => rfl
  | cons r rest ih => simp [renumberFrom, ih]

theorem renumberFrom_map_qualifying (i : ℕ) (l : List PredictionRecord) :
    (renumberFrom i l).map (·.qualifying) = l.map (·.qualifying) := by
  induction l generalizing i with
  | nil => rfl
  | cons r rest ih => simp [renumberFrom, ih]

theorem normalize_length (l : List PredictionRecord) :
    (normalize l).length = l.length := by
  unfold normalize
  rw [renumberFrom_length, List.length_insertionSort]

theorem normalize_map_confidence (l : List PredictionRecord) :
    ((normalize l).map (·.confidence)).Perm (l.map (·.confidence)) := by
  unfold normalize
  rw [renumberFrom_map_confidence]
  exact (List.perm_insertionSort byPos l).map _

theorem normalize_map_qualifying (l : List PredictionRecord) :
    ((normalize l).map (·.qualifying)).Perm (l.map (·.qualifying)) := by
  unfold normalize
  rw [renumberFrom_map_qualifying]
  exact (List.perm_insertionSort byPos l).map _

/-! Helper lemmas about the ranking loop of the web backend. -/

theorem rankLoop_length (w : Weights) (rng : ℕ → Draws) (l : List (String × ℚ))
    (i k : ℕ) : (rankLoop w rng l i k).length = countMatched l := by
  induction l generalizing i k with
  | nil => rfl
  | cons p rest ih =>
    obtain ⟨code, t⟩ := p
    cases h : driversFind code with
    | none => simp [rankLoop, h, countMatched, List.countP_cons, ih]
    | some info => simp [rankLoop, h, countMatched, List.countP_cons, ih]

theorem rankLoop_map_qualifying (w : Weights) (rng : ℕ → Draws)
    (l : List (String × ℚ)) (i k : ℕ) (h : ∀ p ∈ l, (driversFind p.1).isSome) :
    (rankLoop w rng l i k).map (·.qualifying) =
      (List.range' (i + 1) l.length).map (fun n : ℕ => (n : ℤ)) := by
  induction l generalizing i k with
  | nil => rfl
  | cons p rest ih =>
    obtain ⟨code, t⟩ := p
    obtain ⟨info, hinfo⟩ :=
      Option.isSome_iff_exists.mp (h (code, t) (List.mem_cons_self _ _))
    simp only [rankLoop, hinfo, List.map_cons, List.length_cons, List.range'_succ,
      mkRecord, List.cons.injEq,
      ih (i + 1) (k + 1) (fun p hp => h p (List.mem_cons_of_mem _ hp))]
    push_cast
    exact ⟨rfl, trivial⟩

theorem rankLoop_forall (w : Weights) (rng : ℕ → Draws)
    (P : PredictionRecord → Prop) (hP : ∀ i info dr, P (mkRecord w i info dr)) :
    ∀ (l : List (String × ℚ)) (i k : ℕ), (rankLoop w rng l i k).Forall P := by
  intro l
  induction l with
  | nil => intro i k; trivial
  | cons p rest ih =>
    intro i k
    obtain ⟨code, t⟩ := p
    cases h : driversFind code with
    | none => simpa [rankLoop, h] using ih (i + 1) k
    | some info =>
      simpa [rankLoop, h, List.forall_cons] using ⟨hP i info (rng k), ih (i + 1) (k + 1)⟩

/-- The record list returned by the web backend is exactly the
normalisation of the raw ranking loop output: the exceptional empty
branch returns no records, and in that case the normalised list is
empty as well. -/
theorem predictRecords_eq (q : List (String × ℚ)) (w : Weights) (rng : ℕ → Draws) :
    predictRecords q w rng = normalize (rankLoop w rng (q.insertionSort byTime) 0 0) := by
  unfold predictRecords predict
  by_cases h : (normalize (rankLoop w rng (q.insertionSort byTime) 0 0)).length = 0
  · simp [h, List.length_eq_zero.mp h]
  · simp [h]

/-! Helper lemmas for evaluating the truncation at concrete inputs. -/

theorem truncToZero_eval (q : ℚ) (n : ℤ) (h1 : (n : ℚ) ≤ q) (h2 : q < n + 1)
    (h0 : 0 ≤ q) : truncToZero q = n := by
  unfold truncToZero
  rw [if_pos h0]
  exact Int.floor_eq_iff.mpr ⟨h1, h2⟩

theorem truncToZero_eval_neg (q : ℚ) (n : ℤ) (h1 : (n : ℚ) - 1 < q) (h2 : q ≤ n)
    (h0 : q < 0) : truncToZero q = n := by
  unfold truncToZero
  rw [if_neg (not_le.mpr h0)]
  exact Int.ceil_eq_iff.mpr ⟨h1, h2⟩

/-! Helper lemmas for the idempotence of the Rank Normalizer. -/

theorem sorted_of_positions_range (l : List PredictionRecord)
    (hpos : l.map (·.position) =
      (List.range' 1 l.length).map (fun n : ℕ => (n : ℤ))) :
    l.Pairwise byPos := by
  have h2 : ((List.range' 1 l.length).map (fun n : ℕ => (n : ℤ))).Pairwise
      (fun a b : ℤ => a ≤ b) :=
    List.pairwise_map.mpr ((List.pairwise_le_range' 1 l.length).imp
      (fun hab => by exact_mod_cast hab))
  rw [← hpos] at h2
  exact h2.of_map (fun r => r.position) (fun a b h => h)

theorem renumberFrom_eq_self (i : ℕ) (l : List PredictionRecord)
    (hpos : l.map (·.position) =
      (List.range' (i + 1) l.length).map (fun n : ℕ => (n : ℤ)))
    (hchg : ∀ r ∈ l, r.change = r.position - r.qualifying) :
    renumberFrom i l = l := by
  induction l generalizing i with
  | nil => rfl
  | cons r rest ih =>
    simp only [List.map_cons, List.length_cons, List.range'_succ,
      List.cons.injEq] at hpos
    obtain ⟨h1, h2⟩ := hpos
    have h1' : r.position = (i : ℤ) + 1 := by rw [h1]; push_cast; ring
    have hc := hchg r (List.mem_cons_self _ _)
    unfold renumberFrom
    congr 1
    · apply PredictionRecord.ext <;> simp [h1', hc]
    · exact ih (i + 1) h2 (fun r hr => hchg r (List.mem_cons_of_mem _ hr))

/-! Helper bounds for the two confidence formulas. -/

theorem rankConfidence_bounds (w : Weights) (dr : Draws) :
    2 / 5 ≤ rankConfidence w dr ∧ rankConfidence w dr ≤ 19 / 20 := by
  unfold rankConfidence
  exact ⟨le_min (by norm_num) (le_max_left _ _), min_le_left _ _⟩

/-! Claim theorems. -/

/-- C2 (the code side of the claim): on the empty qualifying input the
embedded `predict` reaches the `avgConfidence` division with an empty
record list and raises `ZeroDivisionError` (modelled as `none`); it does
not return the well-formed empty summary with `avgConfidence = 0` that
the claim describes. -/
theorem c2_empty_input_raises (w : Weights) (rng : ℕ → Draws) :
    predict [] w rng = none := rfl

/-- C6: the Rank Normalizer is idempotent: a record list whose positions
are already 1..N in ascending order and whose deltas equal predicted
minus qualifying is returned unchanged by the normalisation step. -/
theorem c6_normalize_idempotent (l : List PredictionRecord)
    (hpos : l.map (·.position) =
      (List.range' 1 l.length).map (fun n : ℕ => (n : ℤ)))
    (hchg : ∀ r ∈ l, r.change = r.position - r.qualifying) :
    normalize l = l := by
  unfold normalize
  rw [List.Sorted.insertionSort_eq (sorted_of_positions_range l hpos)]
  exact renumberFrom_eq_self 0 l hpos hchg

/-- Witness for C6: normalising a concrete already-normalised pair of
records is a no-op. -/
theorem c6_normalize_idempotent_witness : normalize normalizedPair = normalizedPair :=
  c6_normalize_idempotent normalizedPair (by decide) (by decide)

/-- C1 (amended): the web backend's normalisation step yields predicted
positions that are exactly 1..N in ascending order with each delta
recomputed as predicted minus qualifying; the demo backend's
`predict_race`, by contrast, only sorts its records ascending by
predicted position and performs no renumbering. -/
theorem c1_normalization (q : List (String × ℚ)) (w : Weights) (rng : ℕ → Draws)
    (model : Option Model) (qd : List (String × ℚ)) (weather : Weather)
    (ns : ℕ → ℚ) :
    ((predictRecords q w rng).map (·.position) =
        (List.range' 1 (predictRecords q w rng).length).map (fun n : ℕ => (n : ℤ)) ∧
      ∀ r ∈ predictRecords q w rng, r.change = r.position - r.qualifying) ∧
    (raceRecords model qd weather ns).Sorted byPredPos := by
  refine ⟨⟨?_, ?_⟩, ?_⟩
  · rw [predictRecords_eq, normalize_length]
    unfold normalize
    rw [renumberFrom_map_position, List.length_insertionSort]
  · rw [predictRecords_eq]
    unfold normalize
    exact renumberFrom_change 0 _
  · unfold raceRecords predict_race
    cases h : demoLoop model weather ns (qd.insertionSort byTime) 0 0 with
    | none => simp [h]
    | some recs => simpa [h] using List.sorted_insertionSort byPredPos recs

/-- C4: every record returned by the Perturbation Ranker has confidence
in [0.4, 0.95], and every fallback-heuristic result of the Pluggable
Predictor has confidence in [0.4, 0.9], for all weight, entropy and
noise inputs. -/
theorem c4_confidence_bounds :
    (∀ (q : List (String × ℚ)) (w : Weights) (rng : ℕ → Draws),
      (predictRecords q w rng).Forall
        (fun r => 2 / 5 ≤ r.confidence ∧ r.confidence ≤ 19 / 20)) ∧
    ∀ (qp : ℕ) (code : String) (noise : ℚ),
      2 / 5 ≤ (fallback_prediction qp code noise).2 ∧
        (fallback_prediction qp code noise).2 ≤ 9 / 10 := by
  constructor
  · intro q w rng
    rw [List.forall_iff_forall_mem]
    intro r hr
    rw [predictRecords_eq] at hr
    have hconf := (normalize_map_confidence
      (rankLoop w rng (q.insertionSort byTime) 0 0)).mem_iff.mp
      (List.mem_map_of_mem (·.confidence) hr)
    obtain ⟨r', hr', hce⟩ := List.mem_map.mp hconf
    have hF := List.forall_iff_forall_mem.mp
      (rankLoop_forall w rng
        (fun s => 2 / 5 ≤ s.confidence ∧ s.confidence ≤ 19 / 20)
        (fun i info dr => rankConfidence_bounds w dr) _ 0 0) r' hr'
    rw [← hce]
    exact hF
  · intro qp code noise
    simp only [fallback_prediction]
    exact ⟨le_max_left _ _, max_le (by norm_num) (min_le_left _ _)⟩

/-- C5 (amended): every record produced by the ranking loop carries the
raw predicted position `max(1, min(10, trunc(i + 1 + delta)))` for its
qualifying position `i + 1` and its perturbation sum `delta`: the
truncation toward zero is applied to the whole sum, not to the delta
alone. -/
theorem c5_raw_position (w : Weights) (rng : ℕ → Draws) :
    ∀ (l : List (String × ℚ)) (i k j : ℕ) (r : PredictionRecord),
      (rankLoop w rng l i k).get? j = some r →
      r.position = max 1 (min 10 (truncToZero
        ((r.qualifying : ℚ) + totalChange w (rng (k + j))))) := by
  intro l
  induction l with
  | nil => intro i k j r hr; cases hr
  | cons p rest ih =>
    intro i k j r hr
    obtain ⟨code, t⟩ := p
    cases hd : driversFind code with
    | none =>
      simp only [rankLoop, hd] at hr
      exact ih (i + 1) k j r hr
    | some info =>
      simp only [rankLoop, hd] at hr
      cases j with
      | zero =>
        simp only [List.get?_cons_zero, Option.some.injEq] at hr
        subst hr
        simp only [mkRecord, rawPosition, Nat.add_zero]
        congr 3
        push_cast
        ring
      | succ j' =>
        simp only [List.get?_cons_succ] at hr
        have hmain := ih (i + 1) (k + 1) j' r hr
        have hadd : k + 1 + j' = k + (j' + 1) := by omega
        rw [hadd] at hmain
        exact hmain

/-- Witness for C5: the single record of a one-entrant field satisfies
the truncated-sum formula at its consumed draw. -/
theorem c5_raw_position_witness :
    verRankRecord.position = max 1 (min 10 (truncToZero
      ((verRankRecord.qualifying : ℚ) + totalChange noneWeights (zeroRng 0)))) :=
  c5_raw_position noneWeights zeroRng [("VER", 78)] 0 0 0 verRankRecord rfl

/-- C3 (amended): when every entrant code in the qualifying input is
known, the qualifying positions carried by the returned records are a
permutation of 1..N (N the field size), for every weight and entropy
input; qualifying position is assigned from the ascending-time order of
the input.  (With unknown codes present this fails: the index used for
the qualifying position counts the unknown entries of the sorted input
as well.) -/
theorem c3_quali_permutation (q : List (String × ℚ)) (w : Weights)
    (rng : ℕ → Draws) (h : ∀ p ∈ q, (driversFind p.1).isSome) :
    ((predictRecords q w rng).map (·.qualifying)).Perm
      ((List.range' 1 q.length).map (fun n : ℕ => (n : ℤ))) := by
  rw [predictRecords_eq]
  have hs : ∀ p ∈ q.insertionSort byTime, (driversFind p.1).isSome :=
    fun p hp => h p ((List.mem_insertionSort byTime).mp hp)
  have hmap := rankLoop_map_qualifying w rng (q.insertionSort byTime) 0 0 hs
  rw [List.length_insertionSort] at hmap
  exact (normalize_map_qualifying _).trans (by rw [hmap])

/-- Witness for C3: a one-entrant field with a known code. -/
theorem c3_quali_permutation_witness :
    ((predictRecords [("VER", 78)] noneWeights zeroRng).map (·.qualifying)).Perm
      ((List.range' 1 1).map (fun n : ℕ => (n : ℤ))) :=
  c3_quali_permutation [("VER", 78)] noneWeights zeroRng (by decide)

/-- C9: whenever the web backend returns a summary, its accuracy is
68 + int(10 × qualifying-weight), its volatility is 3.5 − 2 ×
qualifying-weight rounded to one decimal, and its avgConfidence is the
arithmetic mean of the returned record confidences expressed as an
integer percentage; moreover accuracy and volatility depend on no
weight other than the qualifying one. -/
theorem c9_aggregates (q : List (String × ℚ)) (w : Weights) (rng : ℕ → Draws) :
    ((predict q w rng).elim True (fun s =>
      s.accuracy = 68 + truncToZero (w.quali.getD (7 / 10) * 10) ∧
      s.volatility = round1 (7 / 2 - w.quali.getD (7 / 10) * 2) ∧
      s.avgConfidence = truncToZero
        ((s.predictions.map (·.confidence)).sum / (s.predictions.length : ℚ) * 100))) ∧
    ∀ w' : Weights, w'.quali = w.quali →
      (predict q w' rng).map (fun s => (s.accuracy, s.volatility)) =
        (predict q w rng).map (fun s => (s.accuracy, s.volatility)) := by
  constructor
  · by_cases h : (normalize (rankLoop w rng (q.insertionSort byTime) 0 0)).length = 0
    · simp [predict, h]
    · simp only [predict]
      rw [if_neg h]
      refine ⟨rfl, rfl, ?_⟩
      rw [← (normalize_map_confidence _).sum_eq]
  · intro w' hq
    have hlen : ∀ w'' : Weights,
        (rankLoop w'' rng (q.insertionSort byTime) 0 0).length
          = countMatched (q.insertionSort byTime) :=
      fun w'' => rankLoop_length w'' rng _ 0 0
    by_cases h : (normalize (rankLoop w rng (q.insertionSort byTime) 0 0)).length = 0
    · have h' : (normalize (rankLoop w' rng (q.insertionSort byTime) 0 0)).length = 0 := by
        rw [normalize_length, hlen w']
        rw [normalize_length, hlen w] at h
        exact h
      simp [predict, h, h']
    · have h' : ¬ (normalize (rankLoop w' rng (q.insertionSort byTime) 0 0)).length = 0 := by
        rw [normalize_length, hlen w']
        rw [normalize_length, hlen w] at h
        exact h
      simp only [predict]
      rw [if_neg h, if_neg h']
      rw [hq]
      simp

/-- Witness for C9: changing only the pace weight leaves accuracy and
volatility unchanged. -/
theorem c9_aggregates_witness :
    (predict [("VER", 78)] ⟨none, some 1, none, none, none⟩ zeroRng).map
        (fun s => (s.accuracy, s.volatility)) =
      (predict [("VER", 78)] noneWeights zeroRng).map
        (fun s => (s.accuracy, s.volatility)) :=
  (c9_aggregates [("VER", 78)] noneWeights zeroRng).2
    ⟨none, some 1, none, none, none⟩ rfl

/-- C10: resolving each possibly-missing weight name to the value the
code reads for it — qualifying 0.7, pace 0.6, tire 0.45, weather 0.3,
strategy 0.5 when missing, the supplied value otherwise — leaves the
entire response unchanged; in particular present names pass through
untouched and the listed constants are exactly the per-name defaults. -/
theorem c10_weight_defaults :
    (∀ (q : List (String × ℚ)) (rng : ℕ → Draws) (w : Weights),
      predict q (resolveW w) rng = predict q w rng) ∧
    resolveW noneWeights =
      ⟨some (7 / 10), some (3 / 5), some (9 / 20), some (3 / 10), some (1 / 2)⟩ := by
  constructor
  · intro q rng w
    have hmk : ∀ i info dr, mkRecord (resolveW w) i info dr = mkRecord w i info dr := by
      intro i info dr
      simp [mkRecord, rawPosition, totalChange, rankConfidence, resolveW]
    have hloop : ∀ l i k, rankLoop (resolveW w) rng l i k = rankLoop w rng l i k := by
      intro l
      induction l with
      | nil => intro i k; rfl
      | cons p rest ih =>
        intro i k
        obtain ⟨c, t⟩ := p
        cases h : driversFind c <;> simp [rankLoop, h, ih, hmk]
    simp only [predict, hloop]
    simp only [resolveW, Option.getD_some]
  · rfl

/-! Helper lemmas about the demo backend. -/

theorem demoLoop_all_fail (m : Model) (hm : ∀ f, m f = none)
    (weather : Weather) (ns : ℕ → ℚ) :
    ∀ (l : List (String × ℚ)) (i k : ℕ),
      demoLoop (some m) weather ns l i k = demoLoop none weather ns l i k := by
  intro l
  induction l with
  | nil => intro i k; rfl
  | cons p rest ih =>
    intro i k
    obtain ⟨c, t⟩ := p
    simp [demoLoop, predictOne, hm, ih]

theorem demoLoop_isSome (model : Option Model) (weather : Weather) (ns : ℕ → ℚ) :
    ∀ (l : List (String × ℚ)) (i k : ℕ),
      (∀ p ∈ l, (assoc DRIVER_NAMES p.1).isSome) →
      ∃ recs, demoLoop model weather ns l i k = some recs ∧ recs.length = l.length := by
  intro l
  induction l with
  | nil => intro i k _; exact ⟨[], rfl, rfl⟩
  | cons p rest ih =>
    intro i k h
    obtain ⟨c, t⟩ := p
    obtain ⟨nm, hnm⟩ := Option.isSome_iff_exists.mp (h (c, t) (List.mem_cons_self _ _))
    have hnm' : assoc DRIVER_NAMES c = some nm := hnm
    obtain ⟨recs, hrecs, hlen⟩ := ih (i + 1) (predictOne model (i + 1) c weather ns k).2
      (fun p hp => h p (List.mem_cons_of_mem _ hp))
    refine ⟨(⟨c, nm, (i : ℤ) + 1, t,
        (predictOne model (i + 1) c weather ns k).1.1,
        (predictOne model (i + 1) c weather ns k).1.2,
        (predictOne model (i + 1) c weather ns k).1.1 - ((i : ℤ) + 1)⟩ :
          DemoRecord) :: recs,
      ?_, ?_⟩
    · simp only [demoLoop, hnm', hrecs, Option.map_some']
    · simp [hlen]

/-- C7: a classifier that raises on every call produces exactly the
output of the no-classifier run (the failure is caught per entrant and
the fallback used); and for any classifier the batch never aborts: with
all display names known, the demo backend returns one record per
entrant. -/
theorem c7_classifier_fallback (q : List (String × ℚ)) (weather : Weather)
    (ns : ℕ → ℚ) :
    (∀ m : Model, (∀ f, m f = none) →
      predict_race (some m) q weather ns = predict_race none q weather ns) ∧
    ∀ model : Option Model, (∀ p ∈ q, (assoc DRIVER_NAMES p.1).isSome) →
      ∃ recs, predict_race model q weather ns = some recs ∧ recs.length = q.length := by
  constructor
  · intro m hm
    unfold predict_race
    rw [demoLoop_all_fail m hm]
  · intro model h
    obtain ⟨recs, hrecs, hlen⟩ := demoLoop_isSome model weather ns
      (q.insertionSort byTime) 0 0
      (fun p hp => h p ((List.mem_insertionSort byTime).mp hp))
    refine ⟨recs.insertionSort byPredPos, ?_, ?_⟩
    · simp [predict_race, hrecs]
    · rw [List.length_insertionSort, hlen, List.length_insertionSort]

/-- Witness for C7: an always-raising classifier on a one-entrant field
reproduces the no-classifier output, and the batch completes. -/
theorem c7_classifier_fallback_witness :
    predict_race (some alwaysFail) [("VER", 78)] monacoWeather zeroNoise =
        predict_race none [("VER", 78)] monacoWeather zeroNoise ∧
      ∃ recs, predict_race none [("VER", 78)] monacoWeather zeroNoise = some recs ∧
        recs.length = 1 :=
  ⟨(c7_classifier_fallback [("VER", 78)] monacoWeather zeroNoise).1
      alwaysFail (fun _ => rfl),
   (c7_classifier_fallback [("VER", 78)] monacoWeather zeroNoise).2 none (by decide)⟩

/-- C8 (amended): without a classifier the demo loop's j-th record is
produced by the fallback heuristic from the j-th unconsumed noise draw
`ns (k + j)`, and its predicted position equals max(1, min(20,
trunc(qualifying position + skill bonus + that noise draw))): the sum
is truncated toward zero (not rounded) and the clamp upper bound is the
constant 20, not the field size; the skill bonus comes from the fixed
lookup with default −0.2 for unknown codes. -/
theorem c8_fallback_position (weather : Weather) (ns : ℕ → ℚ) :
    ∀ (l : List (String × ℚ)) (i k j : ℕ) (recs : List DemoRecord) (r : DemoRecord),
      demoLoop none weather ns l i k = some recs →
      recs.get? j = some r →
      r.predicted_position = max 1 (min 20 (truncToZero
        ((r.qualifying_position : ℚ) +
          ((assoc driver_skill r.driver_code).getD (-(2 / 10)) + ns (k + j))))) := by
  intro l
  induction l with
  | nil =>
    intro i k j recs r h hr
    cases h
    cases hr
  | cons p rest ih =>
    intro i k j recs r h hr
    obtain ⟨c, t⟩ := p
    simp only [demoLoop, predictOne] at h
    cases hnm : assoc DRIVER_NAMES c with
    | none => rw [hnm] at h; cases h
    | some nm =>
      rw [hnm] at h
      cases hrest : demoLoop none weather ns rest (i + 1) (k + 1) with
      | none => rw [hrest] at h; cases h
      | some recs' =>
        rw [hrest] at h
        simp only [Option.map_some'] at h
        cases h
        cases j with
        | zero =>
          simp only [List.get?_cons_zero, Option.some.injEq] at hr
          subst hr
          simp only [fallback_prediction, Nat.add_zero]
          congr 3
          push_cast
          ring
        | succ j' =>
          simp only [List.get?_cons_succ] at hr
          have hmain := ih (i + 1) (k + 1) j' recs' r hrest hr
          have hadd : k + 1 + j' = k + (j' + 1) := by omega
          rw [hadd] at hmain
          exact hmain

/-- Witness for C8: the single record of a one-entrant field satisfies
the truncated-sum formula at its consumed noise draw. -/
theorem c8_fallback_position_witness :
    verDemoRecord.predicted_position = max 1 (min 20 (truncToZero
      ((verDemoRecord.qualifying_position : ℚ) +
        ((assoc driver_skill verDemoRecord.driver_code).getD (-(2 / 10)) +
          zeroNoise 0)))) :=
  c8_fallback_position monacoWeather zeroNoise [("VER", 78)] 0 0 0
    [verDemoRecord] verDemoRecord rfl rfl

/-! Counterexamples. -/

/-- Counterexample to C5 as stated: for sorted index 2 and perturbation
sum −1/2 (realised by a Gaussian baseline draw of −1/2 and zero feature
draws), the code computes trunc(2 + 1 − 1/2) = 2, while the claimed
formula 2 + 1 + trunc(−1/2) gives 3. -/
theorem c5_counterexample :
    rawPosition 2 (totalChange noneWeights ⟨-(1 / 2), 0, 0, 0, 0, 0⟩) = 2 ∧
      rawPositionClaim 2 (totalChange noneWeights ⟨-(1 / 2), 0, 0, 0, 0, 0⟩) = 3 := by
  have htc : totalChange noneWeights ⟨-(1 / 2), 0, 0, 0, 0, 0⟩ = -(1 / 2) := by
    norm_num [totalChange, noneWeights]
  have t1 : truncToZero ((5 : ℚ) / 2) = 2 :=
    truncToZero_eval _ 2 (by norm_num) (by norm_num) (by norm_num)
  have t2 : truncToZero (-(1 / 2) : ℚ) = 0 :=
    truncToZero_eval_neg _ 0 (by norm_num) (by norm_num) (by norm_num)
  rw [htc]
  constructor
  · rw [rawPosition]
    norm_num [t1]
  · rw [rawPositionClaim, t2]
    norm_num

/-- Counterexample to C8 as stated: the code truncates where the claim
rounds — at qualifying position 1, code VER (bonus 0.3), noise 1/2 the
code yields position 1 but the claimed formula (field of 20) yields 2;
and the code clamps to the constant 20 where the claim clamps to the
field size — at qualifying position 2, code VER, noise 10 the code
yields 12 while the claimed formula for a field of 2 yields 2. -/
theorem c8_counterexample :
    (fallback_prediction 1 "VER" (1 / 2)).1 = 1 ∧
      fallbackPositionClaim 1 "VER" (1 / 2) 20 = 2 ∧
      (fallback_prediction 2 "VER" 10).1 = 12 ∧
      fallbackPositionClaim 2 "VER" 10 2 = 2 := by
  have hsk : assoc driver_skill "VER" = some (3 / 10) := rfl
  have f1 : (⌊(9 : ℚ) / 5⌋ : ℤ) = 1 := by
    rw [Int.floor_eq_iff]
    norm_num
  have f2 : (⌊(123 : ℚ) / 10⌋ : ℤ) = 12 := by
    rw [Int.floor_eq_iff]
    norm_num
  have t1 : truncToZero ((9 : ℚ) / 5) = 1 :=
    truncToZero_eval _ 1 (by norm_num) (by norm_num) (by norm_num)
  have t2 : truncToZero ((123 : ℚ) / 10) = 12 :=
    truncToZero_eval _ 12 (by norm_num) (by norm_num) (by norm_num)
  have r1 : pyRound ((9 : ℚ) / 5) = 2 := by
    rw [pyRound, f1]
    norm_num
  have r2 : pyRound ((123 : ℚ) / 10) = 12 := by
    rw [pyRound, f2]
    norm_num
  refine ⟨?_, ?_, ?_, ?_⟩
  · norm_num [fallback_prediction, hsk, t1]
  · norm_num [fallbackPositionClaim, hsk, r1]
  · norm_num [fallback_prediction, hsk, t2]
  · norm_num [fallbackPositionClaim, hsk, r2]

/-- Counterexample to C3 as stated: with an unknown code present the
qualifying positions carried by the output records are not a
permutation of 1..N for N = number of matched entrants — the unknown
entry (silently dropped) still advances the position counter.  The
input {XYZ: 70, VER: 71} matches only VER, so N = 1, yet the single
returned record carries qualifying position 2. -/
theorem c3_counterexample :
    (predictRecords [("XYZ", 70), ("VER", 71)] noneWeights zeroRng).map
        (·.qualifying) = [2] ∧
      ¬ (([(2 : ℤ)]).Perm [1]) := by
  constructor
  · rw [predictRecords_eq]
    have hsort : List.insertionSort byTime [("XYZ", (70 : ℚ)), ("VER", 71)]
        = [("XYZ", 70), ("VER", 71)] := by
      norm_num [List.insertionSort, List.orderedInsert, byTime]
    rw [hsort]
    have hXYZ : driversFind "XYZ" = none := rfl
    have hVER : driversFind "VER" = some ⟨"Max Verstappen", "Red Bull", 1⟩ := rfl
    simp only [rankLoop, hXYZ, hVER]
    norm_num [normalize, List.insertionSort, List.orderedInsert, renumberFrom, mkRecord]
  · decide

/-- Counterexample to C1 as stated: the demo backend's returned records
are not renumbered after the final sort, so the predicted positions
need not form the permutation 1..N — with a two-entrant field and noise
draws 0 and −1, both returned records carry predicted position 1. -/
theorem c1_counterexample :
    (raceRecords none [("VER", 1), ("HAM", 2)] monacoWeather stepNoise).map
        (·.predicted_position) = [1, 1] ∧
      ¬ (([(1 : ℤ), 1]).Perm [1, 2]) := by
  constructor
  · have hsort : List.insertionSort byTime [("VER", (1 : ℚ)), ("HAM", 2)]
        = [("VER", 1), ("HAM", 2)] := by
      norm_num [List.insertionSort, List.orderedInsert, byTime]
    have hnmV : assoc DRIVER_NAMES "VER" = some "Max Verstappen" := rfl
    have hnmH : assoc DRIVER_NAMES "HAM" = some "Lewis Hamilton" := rfl
    have hskV : assoc driver_skill "VER" = some (3 / 10) := rfl
    have hskH : assoc driver_skill "HAM" = some (2 / 10) := rfl
    have t1 : truncToZero ((13 : ℚ) / 10) = 1 :=
      truncToZero_eval _ 1 (by norm_num) (by norm_num) (by norm_num)
    have t2 : truncToZero ((6 : ℚ) / 5) = 1 :=
      truncToZero_eval _ 1 (by norm_num) (by norm_num) (by norm_num)
    have fb1 : (fallback_prediction 1 "VER" 0).1 = 1 := by
      norm_num [fallback_prediction, hskV, t1]
    have fb2 : (fallback_prediction 2 "HAM" (-1)).1 = 1 := by
      norm_num [fallback_prediction, hskH, t2]
    unfold raceRecords predict_race
    rw [hsort]
    simp only [demoLoop, predictOne, hnmV, hnmH, Option.map_some', Option.elim, id,
      stepNoise]
    norm_num [List.insertionSort, List.orderedInsert, byPredPos, fb1, fb2]
  · decide

end F1
